import Mathlib

/-!
# Shallow embedding of `src/worker.js` (Cloudflare Workers navigation page)

The worker keeps four values in a KV namespace (`NAVIGATION_STORE`):
`admin_password`, `admin_session`, `categories`, `sites`.  We model the store
as a keyed map `String → Option String` (KV `get` returns `null`, i.e.
`none`, for an absent key) and translate each request handler of the source
into a pure Lean function from the store (plus the decoded request data) to
its JSON response and the updated store.

JavaScript peculiarities that the handlers depend on are modelled explicitly:

* truthiness of nullable strings (`!x` is true for both `null` and `""`),
* `===` strict equality between decoded JSON values and nullable strings,
* `String.prototype.split`, `trim`, `startsWith` (re-implemented on `List Char`),
* `JSON.stringify` / `JSON.parse` (a verified codec below; JSON numbers are
  not modelled because the repository's data model stores only strings,
  arrays and objects — the parser rejects numeric literals, which none of
  the verified properties touch).

`generateToken()` combines `Math.random()` and `Date.now()`; its output is an
environment-supplied nonempty base-36 string, so the handlers take the fresh
token as an explicit argument and token-shaped strings are captured by the
`base36` predicate.
-/

namespace Nav

/-! ## JSON values

The value universe of the data model (§3 of the design): `null`, booleans,
strings, arrays and objects.  `JSON.stringify`/`JSON.parse` are modelled by
`Json.stringify`/`Json.parse` below. -/

inductive Json where
  | null
  | bool (b : Bool)
  | str (s : String)
  | arr (elems : List Json)
  | obj (members : List (String × Json))

/-- Lower-case hex digit character for `n < 16`, as emitted by
`JSON.stringify` inside `\u00..` escapes. -/
def hexDigitChar (n : Nat) : Char :=
  if n < 10 then Char.ofNat (48 + n) else Char.ofNat (97 + (n - 10))

/-- JSON-escape one character the way `JSON.stringify` does: `"` and `\`
get a backslash, the five control characters `\b \t \n \f \r` use their
short escapes, all other control characters (code < 0x20) become `\u00xx`,
and everything else is emitted verbatim. -/
def escChar (c : Char) : List Char :=
  if c = '"' then ['\\', '"']
  else if c = '\\' then ['\\', '\\']
  else if c = '\x08' then ['\\', 'b']
  else if c = '\x09' then ['\\', 't']
  else if c = '\x0a' then ['\\', 'n']
  else if c = '\x0c' then ['\\', 'f']
  else if c = '\x0d' then ['\\', 'r']
  else if c.toNat < 32 then
    ['\\', 'u', '0', '0', hexDigitChar (c.toNat / 16), hexDigitChar (c.toNat % 16)]
  else [c]

/-- JSON-escape a character list (the body of a string literal). -/
def escBody : List Char → List Char
  | [] => []
  | c :: cs => escChar c ++ escBody cs

/-- The characters of a JSON string literal: quote, escaped body, quote. -/
def strChars (s : String) : List Char :=
  '"' :: (escBody s.data ++ ['"'])

mutual

/-- The characters `JSON.stringify` produces for a value (no whitespace,
object members in stored order, string escaping as in `escChar`). -/
def jsonChars : Json → List Char
  | .null => "null".data
  | .bool true => "true".data
  | .bool false => "false".data
  | .str s => strChars s
  | .arr es => '[' :: (elemsChars es ++ [']'])
  | .obj ms => '{' :: (membersChars ms ++ ['}'])

/-- Comma-separated renderings of array elements. -/
def elemsChars : List Json → List Char
  | [] => []
  | [x] => jsonChars x
  | x :: y :: ys => jsonChars x ++ ',' :: elemsChars (y :: ys)

/-- Comma-separated `"key":value` renderings of object members. -/
def membersChars : List (String × Json) → List Char
  | [] => []
  | [(k, v)] => strChars k ++ ':' :: jsonChars v
  | (k, v) :: m :: ms => strChars k ++ ':' :: jsonChars v ++ ',' :: membersChars (m :: ms)

end

/-- `JSON.stringify`. -/
def Json.stringify (j : Json) : String := String.mk (jsonChars j)

/-! ### The parser (`JSON.parse`)

A failing parse models a thrown `SyntaxError`, i.e. `Option.none`. -/

/-- JSON insignificant whitespace: space, tab, line feed, carriage return. -/
def jsonWs (c : Char) : Bool :=
  c = ' ' || c = '\x09' || c = '\x0a' || c = '\x0d'

/-- Drop leading JSON whitespace. -/
def dropWs : List Char → List Char
  | [] => []
  | c :: cs => if jsonWs c then dropWs cs else c :: cs

/-- The numeric value of a hex digit (both cases accepted, as in `\uXXXX`). -/
def hexVal? (c : Char) : Option Nat :=
  if 48 ≤ c.toNat ∧ c.toNat ≤ 57 then some (c.toNat - 48)
  else if 97 ≤ c.toNat ∧ c.toNat ≤ 102 then some (c.toNat - 87)
  else if 65 ≤ c.toNat ∧ c.toNat ≤ 70 then some (c.toNat - 55)
  else none

/-- The single-character JSON escapes. -/
def escMap? (e : Char) : Option Char :=
  if e = '"' then some '"'
  else if e = '\\' then some '\\'
  else if e = '/' then some '/'
  else if e = 'b' then some '\x08'
  else if e = 'f' then some '\x0c'
  else if e = 'n' then some '\x0a'
  else if e = 'r' then some '\x0d'
  else if e = 't' then some '\x09'
  else none

/-- Lex the body of a JSON string literal (after the opening quote), up to
and including the closing quote; returns the decoded characters and the
remaining input.  Raw control characters are a syntax error, as in JSON. -/
def lexStr : List Char → Option (List Char × List Char)
  | [] => none
  | '\\' :: 'u' :: a :: b :: c3 :: d :: cs3 =>
    match hexVal? a, hexVal? b, hexVal? c3, hexVal? d with
    | some va, some vb, some vc, some vd =>
      (lexStr cs3).map (fun p => (Char.ofNat (((va * 16 + vb) * 16 + vc) * 16 + vd) :: p.1, p.2))
    | _, _, _, _ => none
  | '\\' :: e :: cs2 =>
    match escMap? e with
    | some ch => (lexStr cs2).map (fun p => (ch :: p.1, p.2))
    | none => none
  | c :: cs =>
    if c = '"' then some ([], cs)
    else if c = '\\' then none
    else if c.toNat < 32 then none
    else (lexStr cs).map (fun p => (c :: p.1, p.2))

mutual

/-- Parse one JSON value (fuel-indexed recursion; the top level supplies
ample fuel).  Numeric literals are outside the modelled fragment. -/
def jsonVal : Nat → List Char → Option (Json × List Char)
  | 0, _ => none
  | fuel + 1, cs =>
    match dropWs cs with
    | 'n' :: 'u' :: 'l' :: 'l' :: r => some (.null, r)
    | 't' :: 'r' :: 'u' :: 'e' :: r => some (.bool true, r)
    | 'f' :: 'a' :: 'l' :: 's' :: 'e' :: r => some (.bool false, r)
    | '"' :: r => (lexStr r).map (fun p => (.str (String.mk p.1), p.2))
    | '[' :: r =>
      match dropWs r with
      | [] => none
      | c :: r2 =>
        if c = ']' then some (.arr [], r2)
        else (jsonElems fuel (c :: r2)).map (fun p => (.arr p.1, p.2))
    | '{' :: r =>
      match dropWs r with
      | [] => none
      | c :: r2 =>
        if c = '}' then some (.obj [], r2)
        else (jsonMembers fuel (c :: r2)).map (fun p => (.obj p.1, p.2))
    | _ => none

/-- Parse one-or-more comma-separated array elements and the closing `]`. -/
def jsonElems : Nat → List Char → Option (List Json × List Char)
  | 0, _ => none
  | fuel + 1, cs =>
    match jsonVal fuel cs with
    | none => none
    | some (v, r) =>
      match dropWs r with
      | [] => none
      | c :: r2 =>
        if c = ',' then (jsonElems fuel r2).map (fun p => (v :: p.1, p.2))
        else if c = ']' then some ([v], r2)
        else none

/-- Parse one-or-more comma-separated object members and the closing brace. -/
def jsonMembers : Nat → List Char → Option (List (String × Json) × List Char)
  | 0, _ => none
  | fuel + 1, cs =>
    match dropWs cs with
    | [] => none
    | c :: r =>
      if c = '"' then
        match lexStr r with
        | none => none
        | some (key, r1) =>
          match dropWs r1 with
          | [] => none
          | c2 :: r2 =>
            if c2 = ':' then
              match jsonVal fuel r2 with
              | none => none
              | some (v, r3) =>
                match dropWs r3 with
                | [] => none
                | c3 :: r4 =>
                  if c3 = ',' then
                    (jsonMembers fuel r4).map (fun p => ((String.mk key, v) :: p.1, p.2))
                  else if c3 = '}' then some ([(String.mk key, v)], r4)
                  else none
            else none
      else none

end

/-- `JSON.parse`: parse a complete document, allowing surrounding
whitespace and rejecting trailing garbage.  The fuel `2·|s| + 2` dominates
every recursion path of `jsonVal` on the input. -/
def Json.parse (s : String) : Option Json :=
  match jsonVal (2 * s.data.length + 2) s.data with
  | some (j, r) => if dropWs r = [] then some j else none
  | none => none

/-! ## The KV store (`NAVIGATION_STORE`)

`get` of an absent key is `null` (`none`); `put` overwrites; `delete`
removes.  Values are strings, as in Workers KV. -/

/-- The KV namespace: a map from keys to optional string values. -/
def Store := String → Option String

/-- `NAVIGATION_STORE.get(k)`. -/
def Store.get (σ : Store) (k : String) : Option String := σ k

/-- `NAVIGATION_STORE.put(k, v)`. -/
def Store.put (σ : Store) (k v : String) : Store :=
  fun k2 => if k2 = k then some v else σ k2

/-- `NAVIGATION_STORE.delete(k)`. -/
def Store.del (σ : Store) (k : String) : Store :=
  fun k2 => if k2 = k then none else σ k2

/-- The empty namespace (a fresh deployment). -/
def Store.empty : Store := fun _ => none

/-- JavaScript truthiness of a nullable string: `null` and `""` are falsy
(`if (!x)` takes the falsy branch exactly when this is `false`). -/
def truthy : Option String → Bool
  | none => false
  | some s => s != ""

/-! ## JS string helpers used by `checkSession`

`cookieHeader.split(';')`, `c.trim()`, `c.startsWith('admin_session=')` and
`sessionCookie.split('=')[1]`, re-implemented on `List Char` with JS
semantics (split keeps empty groups; `''.split(x)` is `['']`). -/

/-- `String.prototype.split` with a one-character separator. -/
def splitOnChar (sep : Char) : List Char → List (List Char)
  | [] => [[]]
  | c :: cs =>
    if c = sep then [] :: splitOnChar sep cs
    else
      match splitOnChar sep cs with
      | [] => [[c]]
      | g :: gs => (c :: g) :: gs

/-- The whitespace class of `String.prototype.trim` (ASCII part; the
cookie-relevant characters). -/
def trimWs (c : Char) : Bool :=
  c = ' ' || c = '\x09' || c = '\x0a' || c = '\x0b' || c = '\x0c' || c = '\x0d'

/-- `String.prototype.trim`: strip leading and trailing whitespace. -/
def jsTrim (l : List Char) : List Char :=
  ((l.dropWhile trimWs).reverse.dropWhile trimWs).reverse

/-- `String.prototype.startsWith`. -/
def startsWithL : List Char → List Char → Bool
  | [], _ => true
  | _ :: _, [] => false
  | p :: ps, c :: cs => p == c && startsWithL ps cs

/-! ## Session Checker (`checkSession`, worker.js lines 118–137) -/

/-- The result object of `checkSession`. -/
structure SessionResult where
  isAuthenticated : Bool
  token : Option String

/-- `checkSession(request)`: split the `Cookie` header on `;`, trim each
part, find the first part starting with `admin_session=`, take
`split('=')[1]` as the token (so a value containing `=` is truncated at
it), and authenticate iff that token is truthy and equals the stored
`admin_session` value.  Read-only: it never writes to the store. -/
def checkSession (σ : Store) (cookieHeader : Option String) : SessionResult :=
  match cookieHeader with
  | none => ⟨false, none⟩
  | some h =>
    if h = "" then ⟨false, none⟩
    else
      let cookies := (splitOnChar ';' h.data).map jsTrim
      match cookies.find? (fun c => startsWithL "admin_session=".data c) with
      | none => ⟨false, none⟩
      | some sessionCookie =>
        match (splitOnChar '=' sessionCookie).get? 1 with
        | none => ⟨false, none⟩
        | some tokenChars =>
          if tokenChars = [] then ⟨false, none⟩
          else
            let token := String.mk tokenChars
            if σ.get "admin_session" = some token then ⟨true, some token⟩
            else ⟨false, none⟩

/-! ## Auth Handler (`handleAuth`, worker.js lines 143–186)

The request body is `Option (Option String)`: the outer `none` models
`request.formData()` throwing (caught: generic server-error response), the
inner option is `formData.get('password')` (`none` = field absent, i.e.
`null`).  `generateToken()` is nondeterministic, so the fresh token is an
argument. -/

/-- The JSON response plus side effects of `handleAuth`. -/
structure AuthResult where
  success : Bool
  message : Option String
  setCookie : Option String
  store : Store

/-- `handleAuth(request)`.  Bootstrap branch when the stored password is
falsy (absent — or the empty string, which `!storedPassword` cannot tell
from absent): store the submitted password, store a fresh session token,
set the cookie.  Normal branch: strict string comparison; on match store a
fresh token; on mismatch respond `密码错误` with no writes.  A `put` of
`null` (missing form field) throws and is caught by the surrounding
`try`, before any write has happened. -/
def handleAuth (σ : Store) (body : Option (Option String)) (freshToken : String) : AuthResult :=
  match body with
  | none => ⟨false, some "服务器错误", none, σ⟩
  | some inputPassword =>
    let storedPassword := σ.get "admin_password"
    if truthy storedPassword = false then
      match inputPassword with
      | none => ⟨false, some "服务器错误", none, σ⟩
      | some p =>
        ⟨true, none, some freshToken,
          (σ.put "admin_password" p).put "admin_session" freshToken⟩
    else
      if inputPassword = storedPassword then
        ⟨true, none, some freshToken, σ.put "admin_session" freshToken⟩
      else
        ⟨false, some "密码错误", none, σ⟩

/-- `handleLogout(request)`: delete the stored session token, always
succeed. -/
def handleLogout (σ : Store) : Bool × Store :=
  (true, σ.del "admin_session")

/-! ## Password change (`handleChangePassword`, worker.js lines 214–244)

The body is the destructuring of `await request.json()`: each field is
`Option Json` (`none` = absent, i.e. `undefined`); the outer `Option`
models `request.json()` throwing. -/

/-- JS `===` between a decoded JSON field value and a KV-stored nullable
string: `null === null` is true, strings compare by value, `undefined`,
booleans, arrays and objects are never equal to `null` or to a string. -/
def jsEqStored : Option Json → Option String → Bool
  | some .null, none => true
  | some (.str s), some p => s == p
  | _, _ => false

/-- JS `===` between two decoded JSON field values: `undefined === undefined`
and `null === null` hold, strings and booleans compare by value; arrays and
objects compare by reference, and two separately decoded fields are distinct
references, hence unequal. -/
def jsStrictEq : Option Json → Option Json → Bool
  | none, none => true
  | some .null, some .null => true
  | some (.bool a), some (.bool b) => a == b
  | some (.str a), some (.str b) => a == b
  | _, _ => false

/-- The JSON response plus side effects of `handleChangePassword`. -/
structure ChangeResult where
  success : Bool
  message : Option String
  store : Store

/-- `handleChangePassword(request)`: reject when `currentPassword !==`
the stored password; reject when `newPassword !== confirmPassword`;
otherwise `put` the new password.  A `put` of a non-string value throws
(caught: `修改失败`), with no write. -/
def handleChangePassword (σ : Store)
    (body : Option (Option Json × Option Json × Option Json)) : ChangeResult :=
  match body with
  | none => ⟨false, some "修改失败", σ⟩
  | some (currentPassword, newPassword, confirmPassword) =>
    let storedPassword := σ.get "admin_password"
    if jsEqStored currentPassword storedPassword = false then
      ⟨false, some "当前密码错误", σ⟩
    else if jsStrictEq newPassword confirmPassword = false then
      ⟨false, some "新密码和确认密码不一致", σ⟩
    else
      match newPassword with
      | some (.str s) => ⟨true, some "密码修改成功", σ.put "admin_password" s⟩
      | _ => ⟨false, some "修改失败", σ⟩

/-! ## Data Handler (`handleSaveData` lines 250–266, `handleGetData`
lines 43–66) -/

/-- The JSON response plus side effects of `handleSaveData`. -/
structure SaveResult where
  success : Bool
  message : Option String
  store : Store

/-- `handleSaveData(request)`: destructure `{categories, sites}` from the
body and overwrite both keys with their `JSON.stringify`, categories first.
No authentication check appears here.  An absent field stringifies to
`undefined`, which `put` rejects — thrown after zero writes (categories
absent) or after one (sites absent): the two writes are not atomic. -/
def handleSaveData (σ : Store) (body : Option (Option Json × Option Json)) : SaveResult :=
  match body with
  | none => ⟨false, some "保存失败", σ⟩
  | some (categories, sites) =>
    match categories with
    | none => ⟨false, some "保存失败", σ⟩
    | some cj =>
      let σ1 := σ.put "categories" cj.stringify
      match sites with
      | none => ⟨false, some "保存失败", σ1⟩
      | some sj => ⟨true, none, σ1.put "sites" sj.stringify⟩

/-- The ternary `x ? JSON.parse(x) : []` on one KV read, with a thrown
parse modelled as `none`: an absent key and the falsy `""` give `[]`
without parsing. -/
def jsDecodeOr (v : Option String) : Option Json :=
  match v with
  | none => some (.arr [])
  | some s => if s = "" then some (.arr []) else Json.parse s

/-- `handleGetData(request)`: read both keys and decode each with
`x ? JSON.parse(x) : []`; the single `try/catch` around both means a
parse failure of either collapses the whole response to
`([], [])`.  Total — never throws outward. -/
def handleGetData (σ : Store) : Json × Json :=
  match jsDecodeOr (σ.get "categories") with
  | none => (.arr [], .arr [])
  | some c =>
    match jsDecodeOr (σ.get "sites") with
    | none => (.arr [], .arr [])
    | some s => (c, s)

/-! ## Router for `/admin/*` (`handleAdminRequest`, worker.js lines 72–94)

The four `POST` actions are dispatched *before* any session check; only
the fall-through page branch consults `checkSession`. -/

/-- HTTP methods distinguished by the worker. -/
inductive Method where
  | GET
  | POST
deriving DecidableEq

/-- An incoming `/admin/*` request: method, path, `Cookie` header, and the
decoded body for whichever action route it targets. -/
structure AdminRequest where
  method : Method
  path : String
  cookieHeader : Option String
  authBody : Option (Option String) := none
  saveBody : Option (Option Json × Option Json) := none
  changeBody : Option (Option Json × Option Json × Option Json) := none

/-- The response of `handleAdminRequest`, by branch. -/
inductive AdminResponse where
  | authResp (success : Bool) (message : Option String) (setCookie : Option String)
  | saveResp (success : Bool) (message : Option String)
  | changeResp (success : Bool) (message : Option String)
  | logoutResp
  | page (authenticated : Bool) (setCookie : Option String)

/-- `handleAdminRequest(request)`: dispatch `POST /admin/auth`,
`POST /admin/save`, `POST /admin/change-password`, `POST /admin/logout`
directly to their handlers; any other `/admin` request is answered with
the admin page after a session check (the only place `checkSession` is
called). -/
def handleAdminRequest (σ : Store) (req : AdminRequest) (freshToken : String) :
    AdminResponse × Store :=
  if req.path = "/admin/auth" ∧ req.method = .POST then
    let r := handleAuth σ req.authBody freshToken
    (.authResp r.success r.message r.setCookie, r.store)
  else if req.path = "/admin/save" ∧ req.method = .POST then
    let r := handleSaveData σ req.saveBody
    (.saveResp r.success r.message, r.store)
  else if req.path = "/admin/change-password" ∧ req.method = .POST then
    let r := handleChangePassword σ req.changeBody
    (.changeResp r.success r.message, r.store)
  else if req.path = "/admin/logout" ∧ req.method = .POST then
    let r := handleLogout σ
    (.logoutResp, r.2)
  else
    let session := checkSession σ req.cookieHeader
    if session.isAuthenticated then (.page true session.token, σ)
    else (.page false none, σ)

/-! ## The data model's collections (§3): categories and sites -/

/-- A site entry: name, URL, owning category, icon markup. -/
structure Site where
  name : String
  url : String
  category : String
  icon : String

/-- The JSON object the admin client submits for one site. -/
def Site.toJson (s : Site) : Json :=
  .obj [("name", .str s.name), ("url", .str s.url),
        ("category", .str s.category), ("icon", .str s.icon)]

/-- The JSON array for a categories sequence. -/
def encodeCategories (C : List String) : Json := .arr (C.map .str)

/-- The JSON array for a sites sequence. -/
def encodeSites (S : List Site) : Json := .arr (S.map Site.toJson)

/-- Tokens produced by `generateToken()`: nonempty strings of base-36
digits (`Math.random().toString(36).substring(2) + Date.now().toString(36)`). -/
def base36 (t : String) : Prop :=
  t.data ≠ [] ∧ ∀ c ∈ t.data, (48 ≤ c.toNat ∧ c.toNat ≤ 57) ∨ (97 ≤ c.toNat ∧ c.toNat ≤ 122)

instance (t : String) : Decidable (base36 t) := by
  unfold base36; infer_instance

/-! ## Concrete stores and requests used by the claim theorems,
counterexamples and witnesses -/

/-- A store whose admin password is the empty string (reachable via
bootstrap with an empty submitted password, or via `changePassword` to
`""`, which the server does not length-check). -/
def storeEmptyPw : Store := fun k => if k = "admin_password" then some "" else none

/-- A concrete store with password `"a"`. -/
def storePwA : Store := fun k => if k = "admin_password" then some "a" else none

/-- A concrete store with password `"a"` (for the change-password witnesses). -/
def storePwB : Store := fun k => if k = "admin_password" then some "a" else none

/-- A store with a password and a live session, for the frame witness. -/
def storePwSession : Store := fun k =>
  if k = "admin_password" then some "a"
  else if k = "admin_session" then some "tok"
  else none

/-- The decode of one stored value as §4.4 of the spec words it for a
single key: default to the empty array when the key is absent or its
value does not decode (the code's falsy test also empties a stored
`""` without parsing). -/
def specDecode (v : Option String) : Json :=
  match v with
  | none => .arr []
  | some s => if s = "" then .arr [] else (Json.parse s).getD (.arr [])

/-- A stored value whose decode throws: present, nonempty, unparsable. -/
def decodeFails (v : Option String) : Prop :=
  ∃ s, v = some s ∧ s ≠ "" ∧ Json.parse s = none

/-- Valid categories next to unparsable sites. -/
def storeMixed : Store := fun k =>
  if k = "categories" then some "[\"a\"]"
  else if k = "sites" then some "x" else none

/-- Unparsable sites only. -/
def storeBadSites : Store := fun k => if k = "sites" then some "x" else none

/-- Stored token `"abc"`. -/
def storeTokAbc : Store := fun k => if k = "admin_session" then some "abc" else none

/-- Stored token `"a"`. -/
def storeTokA : Store := fun k => if k = "admin_session" then some "a" else none

/-- A deployed store: password set, a live session token, existing data. -/
def storeLive : Store := fun k =>
  if k = "admin_password" then some "pw"
  else if k = "admin_session" then some "secrettok"
  else if k = "categories" then some "[\"Work\"]"
  else if k = "sites" then some "[\"w\"]"
  else none

/-- `POST /admin/save` with no Cookie header at all. -/
def saveNoCookieReq : AdminRequest :=
  { method := .POST, path := "/admin/save", cookieHeader := none,
    saveBody := some (some (.arr []), some (.arr [])) }


/-! ## The codec round-trip: `Json.parse (Json.stringify j) = some j`

Fuel accounting: `costV j` bounds the fuel `jsonVal` needs on input
`jsonChars j ++ rest`; the top-level fuel `2·|s| + 2` dominates it. -/

mutual

/-- Fuel needed by `jsonVal` on a rendered value. -/
def costV : Json → Nat
  | .null => 1
  | .bool _ => 1
  | .str _ => 1
  | .arr es => costE es + 1
  | .obj ms => costM ms + 1

/-- Fuel needed by `jsonElems` on rendered elements. -/
def costE : List Json → Nat
  | [] => 1
  | x :: xs => max (costV x) (costE xs) + 1

/-- Fuel needed by `jsonMembers` on rendered members. -/
def costM : List (String × Json) → Nat
  | [] => 1
  | (_, v) :: ms => max (costV v) (costM ms) + 1

end

theorem costV_pos (j : Json) : 1 ≤ costV j := by
  cases j <;> simp [costV]

theorem costE_pos (xs : List Json) : 1 ≤ costE xs := by
  cases xs <;> simp [costE]

theorem costM_pos (ms : List (String × Json)) : 1 ≤ costM ms := by
  cases ms <;> simp [costM]

/-- Every rendered value starts with one of `n t f " [ {` — in particular
not whitespace and not a closing bracket, brace or comma. -/
theorem jsonChars_head (j : Json) :
    ∃ c t, jsonChars j = c :: t ∧ jsonWs c = false ∧ c ≠ ']' ∧ c ≠ '}' ∧ c ≠ ',' := by
  cases j with
  | null => exact ⟨'n', _, rfl, by decide, by decide, by decide, by decide⟩
  | bool b =>
    cases b with
    | true => exact ⟨'t', _, rfl, by decide, by decide, by decide, by decide⟩
    | false => exact ⟨'f', _, rfl, by decide, by decide, by decide, by decide⟩
  | str s => exact ⟨'"', _, rfl, by decide, by decide, by decide, by decide⟩
  | arr es => exact ⟨'[', _, rfl, by decide, by decide, by decide, by decide⟩
  | obj ms => exact ⟨'{', _, rfl, by decide, by decide, by decide, by decide⟩

theorem dropWs_cons_not {c : Char} (t : List Char) (h : jsonWs c = false) :
    dropWs (c :: t) = c :: t := by
  simp [dropWs, h]

/-- `hexVal?` inverts `hexDigitChar` below 16. -/
theorem hexVal_hexDigitChar : ∀ k < 16, hexVal? (hexDigitChar k) = some k := by decide

/-- `lexStr` consumes one escaped character and decodes it back. -/
theorem lexStr_escChar (c : Char) (T : List Char) :
    lexStr (escChar c ++ T) = (lexStr T).map (fun p => (c :: p.1, p.2)) := by
  by_cases hq : c = '"'
  · subst hq; rfl
  by_cases hb : c = '\\'
  · subst hb; rfl
  by_cases h8 : c = '\x08'
  · subst h8; rfl
  by_cases h9 : c = '\x09'
  · subst h9; rfl
  by_cases ha : c = '\x0a'
  · subst ha; rfl
  by_cases hc12 : c = '\x0c'
  · subst hc12; rfl
  by_cases hd : c = '\x0d'
  · subst hd; rfl
  by_cases hlt : c.toNat < 32
  · have e0 : hexVal? '0' = some 0 := by decide
    have e1 : hexVal? (hexDigitChar (c.toNat / 16)) = some (c.toNat / 16) :=
      hexVal_hexDigitChar _ (by omega)
    have e2 : hexVal? (hexDigitChar (c.toNat % 16)) = some (c.toNat % 16) :=
      hexVal_hexDigitChar _ (by omega)
    have harith : ((0 * 16 + 0) * 16 + c.toNat / 16) * 16 + c.toNat % 16 = c.toNat := by omega
    have hesc : escChar c ++ T
        = '\\' :: 'u' :: '0' :: '0' :: hexDigitChar (c.toNat / 16)
            :: hexDigitChar (c.toNat % 16) :: T := by
      simp [escChar, hq, hb, h8, h9, ha, hc12, hd, hlt]
    rw [hesc, lexStr, e0, e1, e2]
    simp only [harith, Char.ofNat_toNat]
  · have hesc : escChar c = [c] := by
      simp [escChar, hq, hb, h8, h9, ha, hc12, hd, hlt]
    rw [hesc]
    show lexStr (c :: T) = _
    rw [lexStr.eq_def]
    split
    · simp_all
    · simp_all
    · simp_all
    · simp_all

/-- The string codec round-trip: lexing an escaped body recovers it. -/
theorem lexStr_escBody : ∀ (cs rest : List Char),
    lexStr (escBody cs ++ '"' :: rest) = some (cs, rest) := by
  intro cs
  induction cs with
  | nil => intro rest; rfl
  | cons c cs ih =>
    intro rest
    have hsh : escBody (c :: cs) ++ '"' :: rest = escChar c ++ (escBody cs ++ '"' :: rest) := by
      simp [escBody, List.append_assoc]
    rw [hsh, lexStr_escChar, ih]
    rfl

/-! ### One-step unfoldings of the parser (definitional) -/

theorem jsonVal_nullStep (f : Nat) (r : List Char) :
    jsonVal (f + 1) ('n' :: 'u' :: 'l' :: 'l' :: r) = some (.null, r) := rfl

theorem jsonVal_trueStep (f : Nat) (r : List Char) :
    jsonVal (f + 1) ('t' :: 'r' :: 'u' :: 'e' :: r) = some (.bool true, r) := rfl

theorem jsonVal_falseStep (f : Nat) (r : List Char) :
    jsonVal (f + 1) ('f' :: 'a' :: 'l' :: 's' :: 'e' :: r) = some (.bool false, r) := rfl

theorem jsonVal_strStep (f : Nat) (r : List Char) :
    jsonVal (f + 1) ('"' :: r)
      = (lexStr r).map (fun p => (.str (String.mk p.1), p.2)) := rfl

theorem jsonVal_arrNilStep (f : Nat) (r : List Char) :
    jsonVal (f + 1) ('[' :: ']' :: r) = some (.arr [], r) := rfl

theorem jsonVal_objNilStep (f : Nat) (r : List Char) :
    jsonVal (f + 1) ('{' :: '}' :: r) = some (.obj [], r) := rfl

theorem jsonVal_arrStep (f : Nat) (c : Char) (t : List Char)
    (hws : jsonWs c = false) (hbr : c ≠ ']') :
    jsonVal (f + 1) ('[' :: c :: t)
      = (jsonElems f (c :: t)).map (fun p => (.arr p.1, p.2)) := by
  show (match dropWs (c :: t) with
        | [] => none
        | c2 :: r2 =>
          if c2 = ']' then some (Json.arr [], r2)
          else (jsonElems f (c2 :: r2)).map
            (fun (p : List Json × List Char) => (Json.arr p.1, p.2))) = _
  rw [dropWs_cons_not t hws]
  simp [hbr]

theorem jsonVal_objStep (f : Nat) (c : Char) (t : List Char)
    (hws : jsonWs c = false) (hbr : c ≠ '}') :
    jsonVal (f + 1) ('{' :: c :: t)
      = (jsonMembers f (c :: t)).map (fun p => (.obj p.1, p.2)) := by
  show (match dropWs (c :: t) with
        | [] => none
        | c2 :: r2 =>
          if c2 = '}' then some (Json.obj [], r2)
          else (jsonMembers f (c2 :: r2)).map
            (fun (p : List (String × Json) × List Char) => (Json.obj p.1, p.2))) = _
  rw [dropWs_cons_not t hws]
  simp [hbr]

theorem jsonElems_step (f : Nat) (cs : List Char) :
    jsonElems (f + 1) cs
      = (match jsonVal f cs with
         | none => none
         | some (v, r) =>
           match dropWs r with
           | [] => none
           | c :: r2 =>
             if c = ',' then (jsonElems f r2).map (fun p => (v :: p.1, p.2))
             else if c = ']' then some ([v], r2)
             else none) := rfl

theorem jsonMembers_keyStep (f : Nat) (kbody T : List Char) :
    jsonMembers (f + 1) ('"' :: (escBody kbody ++ '"' :: T))
      = (match dropWs T with
         | [] => none
         | c2 :: r2 =>
           if c2 = ':' then
             match jsonVal f r2 with
             | none => none
             | some (v, r3) =>
               match dropWs r3 with
               | [] => none
               | c3 :: r4 =>
                 if c3 = ',' then
                   (jsonMembers f r4).map (fun p => ((String.mk kbody, v) :: p.1, p.2))
                 else if c3 = '}' then some ([(String.mk kbody, v)], r4)
                 else none
           else none) := by
  show (match lexStr (escBody kbody ++ '"' :: T) with
        | none => none
        | some (key, r1) =>
          match dropWs r1 with
          | [] => none
          | c2 :: r2 =>
            if c2 = ':' then
              match jsonVal f r2 with
              | none => none
              | some (v, r3) =>
                match dropWs r3 with
                | [] => none
                | c3 :: r4 =>
                  if c3 = ',' then
                    (jsonMembers f r4).map
                      (fun (p : List (String × Json) × List Char) =>
                        ((String.mk key, v) :: p.1, p.2))
                  else if c3 = '}' then some ([(String.mk key, v)], r4)
                  else none
            else none) = _
  rw [lexStr_escBody]

/-- `elemsChars` of a nonempty list starts with the first element's
rendering. -/
theorem elemsChars_shape (x : Json) (xs : List Json) :
    ∃ u, elemsChars (x :: xs) = jsonChars x ++ u := by
  cases xs with
  | nil => exact ⟨[], by simp [elemsChars]⟩
  | cons y ys => exact ⟨',' :: elemsChars (y :: ys), rfl⟩

/-- `membersChars` of a nonempty list starts with the first key's quote. -/
theorem membersChars_head (k : String) (v : Json) (ms : List (String × Json)) :
    ∃ t, membersChars ((k, v) :: ms) = '"' :: t := by
  cases ms with
  | nil => exact ⟨_, rfl⟩
  | cons m ms => exact ⟨_, rfl⟩

mutual

/-- Round trip for one value: the parser inverts the renderer. -/
theorem rtVal : ∀ (j : Json) (f : Nat) (rest : List Char), costV j ≤ f →
    jsonVal f (jsonChars j ++ rest) = some (j, rest)
  | .null, f, rest, h => by
    cases f with
    | zero => exact absurd h (by simp [costV])
    | succ f => exact jsonVal_nullStep f rest
  | .bool true, f, rest, h => by
    cases f with
    | zero => exact absurd h (by simp [costV])
    | succ f => exact jsonVal_trueStep f rest
  | .bool false, f, rest, h => by
    cases f with
    | zero => exact absurd h (by simp [costV])
    | succ f => exact jsonVal_falseStep f rest
  | .str s, f, rest, h => by
    cases f with
    | zero => exact absurd h (by simp [costV])
    | succ f =>
      have hsh : jsonChars (.str s) ++ rest = '"' :: (escBody s.data ++ '"' :: rest) := by
        simp [jsonChars, strChars]
      rw [hsh, jsonVal_strStep, lexStr_escBody]
      rfl
  | .arr [], f, rest, h => by
    cases f with
    | zero => exact absurd h (by have := costV_pos (Json.arr []); omega)
    | succ f => exact jsonVal_arrNilStep f rest
  | .arr (x :: xs), f, rest, h => by
    cases f with
    | zero => exact absurd h (by have := costV_pos (.arr (x :: xs)); omega)
    | succ f =>
      have hE : costE (x :: xs) ≤ f := by
        simp only [costV] at h; omega
      obtain ⟨u, hu⟩ := elemsChars_shape x xs
      obtain ⟨c, t, hx, hws, hbr, _, _⟩ := jsonChars_head x
      have hsh : jsonChars (.arr (x :: xs)) ++ rest
          = '[' :: (elemsChars (x :: xs) ++ ']' :: rest) := by
        simp [jsonChars, List.append_assoc]
      have hsh2 : elemsChars (x :: xs) ++ ']' :: rest = c :: (t ++ (u ++ ']' :: rest)) := by
        rw [hu, hx]; simp [List.append_assoc]
      rw [hsh, hsh2, jsonVal_arrStep f c _ hws hbr, ← hsh2, rtElems x xs f rest hE]
      rfl
  | .obj [], f, rest, h => by
    cases f with
    | zero => exact absurd h (by have := costV_pos (Json.obj []); omega)
    | succ f => exact jsonVal_objNilStep f rest
  | .obj ((k, v) :: ms), f, rest, h => by
    cases f with
    | zero => exact absurd h (by have := costV_pos (.obj ((k, v) :: ms)); omega)
    | succ f =>
      have hM : costM ((k, v) :: ms) ≤ f := by
        simp only [costV] at h; omega
      obtain ⟨t, ht⟩ := membersChars_head k v ms
      have hsh : jsonChars (.obj ((k, v) :: ms)) ++ rest
          = '{' :: (membersChars ((k, v) :: ms) ++ '}' :: rest) := by
        simp [jsonChars, List.append_assoc]
      have hsh2 : membersChars ((k, v) :: ms) ++ '}' :: rest = '"' :: (t ++ '}' :: rest) := by
        rw [ht]; simp
      rw [hsh, hsh2, jsonVal_objStep f '"' _ (by decide) (by decide), ← hsh2,
        rtMembers k v ms f rest hM]
      rfl
termination_by j f rest h => sizeOf j
decreasing_by all_goals simp_wf <;> omega

/-- Round trip for a nonempty element list up to the closing bracket. -/
theorem rtElems : ∀ (x : Json) (xs : List Json) (f : Nat) (rest : List Char),
    costE (x :: xs) ≤ f →
    jsonElems f (elemsChars (x :: xs) ++ ']' :: rest) = some (x :: xs, rest)
  | x, [], f, rest, h => by
    cases f with
    | zero => exact absurd h (by have := costE_pos [x]; omega)
    | succ f =>
      have hx : costV x ≤ f := by
        have h2 : max (costV x) (costE ([] : List Json)) + 1 ≤ f + 1 := h
        have := le_max_left (costV x) (costE ([] : List Json))
        omega
      have hsh : elemsChars [x] ++ ']' :: rest = jsonChars x ++ ']' :: rest := by
        simp [elemsChars]
      rw [jsonElems_step, hsh, rtVal x f (']' :: rest) hx]
      rfl
  | x, y :: ys, f, rest, h => by
    cases f with
    | zero => exact absurd h (by have := costE_pos (x :: y :: ys); omega)
    | succ f =>
      have h2 : max (costV x) (costE (y :: ys)) + 1 ≤ f + 1 := h
      have hx : costV x ≤ f := by
        have := le_max_left (costV x) (costE (y :: ys))
        omega
      have hys : costE (y :: ys) ≤ f := by
        have := le_max_right (costV x) (costE (y :: ys))
        omega
      have hsh : elemsChars (x :: y :: ys) ++ ']' :: rest
          = jsonChars x ++ ',' :: (elemsChars (y :: ys) ++ ']' :: rest) := by
        simp [elemsChars, List.append_assoc]
      rw [jsonElems_step, hsh, rtVal x f _ hx]
      show (jsonElems f (elemsChars (y :: ys) ++ ']' :: rest)).map
          (fun (p : List Json × List Char) => (x :: p.1, p.2)) = _
      rw [rtElems y ys f rest hys]
      rfl
termination_by x xs f rest h => sizeOf x + sizeOf xs + 1
decreasing_by all_goals simp_wf <;> omega

/-- Round trip for a nonempty member list up to the closing brace. -/
theorem rtMembers : ∀ (k : String) (v : Json) (ms : List (String × Json)) (f : Nat)
    (rest : List Char), costM ((k, v) :: ms) ≤ f →
    jsonMembers f (membersChars ((k, v) :: ms) ++ '}' :: rest) = some ((k, v) :: ms, rest)
  | k, v, [], f, rest, h => by
    cases f with
    | zero => exact absurd h (by have := costM_pos [(k, v)]; omega)
    | succ f =>
      have hv : costV v ≤ f := by
        have h2 : max (costV v) (costM ([] : List (String × Json))) + 1 ≤ f + 1 := h
        have := le_max_left (costV v) (costM ([] : List (String × Json)))
        omega
      have hsh : membersChars [(k, v)] ++ '}' :: rest
          = '"' :: (escBody k.data ++ '"' :: (':' :: (jsonChars v ++ '}' :: rest))) := by
        simp [membersChars, strChars, List.append_assoc]
      rw [hsh, jsonMembers_keyStep]
      show (match jsonVal f (jsonChars v ++ '}' :: rest) with
            | none => none
            | some (v2, r3) =>
              match dropWs r3 with
              | [] => none
              | c3 :: r4 =>
                if c3 = ',' then
                  (jsonMembers f r4).map
                    (fun (p : List (String × Json) × List Char) =>
                      ((String.mk k.data, v2) :: p.1, p.2))
                else if c3 = '}' then some ([(String.mk k.data, v2)], r4)
                else none) = _
      rw [rtVal v f _ hv]
      rfl
  | k, v, (k2, v2) :: ms, f, rest, h => by
    cases f with
    | zero => exact absurd h (by have := costM_pos ((k, v) :: (k2, v2) :: ms); omega)
    | succ f =>
      have h2 : max (costV v) (costM ((k2, v2) :: ms)) + 1 ≤ f + 1 := h
      have hv : costV v ≤ f := by
        have := le_max_left (costV v) (costM ((k2, v2) :: ms))
        omega
      have hms : costM ((k2, v2) :: ms) ≤ f := by
        have := le_max_right (costV v) (costM ((k2, v2) :: ms))
        omega
      have hsh : membersChars ((k, v) :: (k2, v2) :: ms) ++ '}' :: rest
          = '"' :: (escBody k.data ++ '"' ::
              (':' :: (jsonChars v ++ ',' :: (membersChars ((k2, v2) :: ms) ++ '}' :: rest)))) := by
        simp [membersChars, strChars, List.append_assoc]
      rw [hsh, jsonMembers_keyStep]
      show (match jsonVal f (jsonChars v ++ ',' :: (membersChars ((k2, v2) :: ms) ++ '}' :: rest)) with
            | none => none
            | some (w, r3) =>
              match dropWs r3 with
              | [] => none
              | c3 :: r4 =>
                if c3 = ',' then
                  (jsonMembers f r4).map
                    (fun (p : List (String × Json) × List Char) =>
                      ((String.mk k.data, w) :: p.1, p.2))
                else if c3 = '}' then some ([(String.mk k.data, w)], r4)
                else none) = _
      rw [rtVal v f _ hv]
      show (jsonMembers f (membersChars ((k2, v2) :: ms) ++ '}' :: rest)).map
          (fun (p : List (String × Json) × List Char) =>
            ((String.mk k.data, v) :: p.1, p.2)) = _
      rw [rtMembers k2 v2 ms f rest hms]
      rfl
termination_by k v ms f rest h => sizeOf v + sizeOf ms + 1
decreasing_by all_goals simp_wf <;> omega

end

mutual

/-- The fuel bound of a rendered value is dominated by twice its length. -/
theorem costV_le : ∀ j : Json, costV j ≤ 2 * (jsonChars j).length
  | .null => by simp [costV, jsonChars]
  | .bool true => by simp [costV, jsonChars]
  | .bool false => by simp [costV, jsonChars]
  | .str s => by
    have e : costV (.str s) = 1 := rfl
    have : (jsonChars (.str s)).length = (escBody s.data ++ ['"']).length + 1 := by
      simp [jsonChars, strChars]
    omega
  | .arr [] => by simp [costV, costE, jsonChars, elemsChars]
  | .arr (x :: xs) => by
    have h1 := costE_le x xs
    have e : costV (.arr (x :: xs)) = costE (x :: xs) + 1 := rfl
    have hlen : (jsonChars (.arr (x :: xs))).length = (elemsChars (x :: xs)).length + 2 := by
      simp [jsonChars]
    omega
  | .obj [] => by simp [costV, costM, jsonChars, membersChars]
  | .obj ((k, v) :: ms) => by
    have h1 := costM_le k v ms
    have e : costV (.obj ((k, v) :: ms)) = costM ((k, v) :: ms) + 1 := rfl
    have hlen : (jsonChars (.obj ((k, v) :: ms))).length
        = (membersChars ((k, v) :: ms)).length + 2 := by
      simp [jsonChars]
    omega
termination_by j => sizeOf j
decreasing_by all_goals simp_wf <;> omega

/-- Fuel bound for a nonempty element list. -/
theorem costE_le : ∀ (x : Json) (xs : List Json),
    costE (x :: xs) ≤ 2 * (elemsChars (x :: xs)).length + 1
  | x, [] => by
    have h1 := costV_le x
    have e : costE [x] = max (costV x) (costE ([] : List Json)) + 1 := rfl
    have e0 : costE ([] : List Json) = 1 := rfl
    obtain ⟨c, t, hx, _, _, _, _⟩ := jsonChars_head x
    have hlen : (elemsChars [x]).length = (jsonChars x).length := by simp [elemsChars]
    have hpos : 1 ≤ (jsonChars x).length := by rw [hx]; simp
    omega
  | x, y :: ys => by
    have h1 := costV_le x
    have h2 := costE_le y ys
    have e : costE (x :: y :: ys) = max (costV x) (costE (y :: ys)) + 1 := rfl
    have hlen : (elemsChars (x :: y :: ys)).length
        = (jsonChars x).length + (elemsChars (y :: ys)).length + 1 := by
      simp [elemsChars]; omega
    omega
termination_by x xs => sizeOf x + sizeOf xs + 1
decreasing_by all_goals simp_wf <;> omega

/-- Fuel bound for a nonempty member list. -/
theorem costM_le : ∀ (k : String) (v : Json) (ms : List (String × Json)),
    costM ((k, v) :: ms) ≤ 2 * (membersChars ((k, v) :: ms)).length + 1
  | k, v, [] => by
    have h1 := costV_le v
    have e : costM [(k, v)] = max (costV v) (costM ([] : List (String × Json))) + 1 := rfl
    have e0 : costM ([] : List (String × Json)) = 1 := rfl
    have hlen : (membersChars [(k, v)]).length
        = (strChars k).length + (jsonChars v).length + 1 := by
      simp [membersChars]; omega
    have hpos : 1 ≤ (strChars k).length := by simp [strChars]
    omega
  | k, v, (k2, v2) :: ms => by
    have h1 := costV_le v
    have h2 := costM_le k2 v2 ms
    have e : costM ((k, v) :: (k2, v2) :: ms)
        = max (costV v) (costM ((k2, v2) :: ms)) + 1 := rfl
    have hlen : (membersChars ((k, v) :: (k2, v2) :: ms)).length
        = (strChars k).length + (jsonChars v).length
            + (membersChars ((k2, v2) :: ms)).length + 2 := by
      simp [membersChars]; omega
    omega
termination_by k v ms => sizeOf v + sizeOf ms + 1
decreasing_by all_goals simp_wf <;> omega

end

/-- The codec round-trip: `JSON.parse` inverts `JSON.stringify` on every
value of the modelled fragment. -/
theorem parse_stringify (j : Json) : Json.parse (Json.stringify j) = some j := by
  have hc : costV j ≤ 2 * (jsonChars j).length + 2 := by
    have := costV_le j; omega
  have h := rtVal j (2 * (jsonChars j).length + 2) [] hc
  rw [List.append_nil] at h
  show (match jsonVal (2 * (jsonChars j).length + 2) (jsonChars j) with
        | some (j2, r) => if dropWs r = [] then some j2 else none
        | none => none) = some j
  rw [h]
  rfl

/-- A rendered value is never the empty string (so the falsy-empty branch
of `getData` is not taken for stored renderings). -/
theorem stringify_ne_empty (j : Json) : Json.stringify j ≠ "" := by
  obtain ⟨c, t, hj, _, _, _, _⟩ := jsonChars_head j
  intro he
  have hdata : jsonChars j = ([] : List Char) := congrArg String.data he
  rw [hj] at hdata
  exact List.noConfusion hdata

theorem Store.get_put_same (σ : Store) (k v : String) : (σ.put k v).get k = some v := by
  simp [Store.get, Store.put]

theorem Store.get_put_ne (σ : Store) (k k2 v : String) (h : k2 ≠ k) :
    (σ.put k v).get k2 = σ.get k2 := by
  simp [Store.get, Store.put, h]

theorem Store.get_del_ne (σ : Store) (k k2 : String) (h : k2 ≠ k) :
    (σ.del k).get k2 = σ.get k2 := by
  simp [Store.get, Store.del, h]

/-- Decoding a freshly stored rendering gives back the value. -/
theorem jsDecodeOr_stringify (j : Json) :
    jsDecodeOr (some (Json.stringify j)) = some j := by
  show (if Json.stringify j = "" then some (Json.arr []) else Json.parse (Json.stringify j))
      = some j
  rw [if_neg (stringify_ne_empty j), parse_stringify]

/-! ## Behaviour lemmas for `handleAuth` -/

/-- Bootstrap branch of `handleAuth`: falsy stored password, password field
present. -/
theorem handleAuth_bootstrap_eq (σ : Store) (p t : String)
    (htr : truthy (σ.get "admin_password") = false) :
    handleAuth σ (some (some p)) t
      = ⟨true, none, some t, (σ.put "admin_password" p).put "admin_session" t⟩ := by
  simp [handleAuth, htr]

/-- Matching-password branch of `handleAuth`. -/
theorem handleAuth_match_eq (σ : Store) (P t : String)
    (hP : σ.get "admin_password" = some P) (hne : P ≠ "") :
    handleAuth σ (some (some P)) t = ⟨true, none, some t, σ.put "admin_session" t⟩ := by
  have htr : truthy (some P) = true := by simp [truthy, hne]
  simp [handleAuth, hP, htr]

/-- Mismatching-password branch of `handleAuth`: error response, no writes. -/
theorem handleAuth_mismatch_eq (σ : Store) (P p t : String)
    (hP : σ.get "admin_password" = some P) (hne : P ≠ "") (hpP : p ≠ P) :
    handleAuth σ (some (some p)) t = ⟨false, some "密码错误", none, σ⟩ := by
  have htr : truthy (some P) = true := by simp [truthy, hne]
  simp [handleAuth, hP, htr, hpP]

/-- Any successful login leaves the fresh token as the stored session. -/
theorem handleAuth_success_token (σ : Store) (body : Option (Option String)) (t : String)
    (h : (handleAuth σ body t).success = true) :
    (handleAuth σ body t).store.get "admin_session" = some t := by
  rcases body with _ | ip
  · simp [handleAuth] at h
  · by_cases htr : truthy (σ.get "admin_password") = false
    · rcases ip with _ | p
      · simp [handleAuth, htr] at h
      · rw [handleAuth_bootstrap_eq σ p t htr]
        exact Store.get_put_same _ _ _
    · by_cases hip : ip = σ.get "admin_password"
      · have e : handleAuth σ (some ip) t = ⟨true, none, some t, σ.put "admin_session" t⟩ := by
          simp [handleAuth, htr, hip]
        rw [e]
        exact Store.get_put_same _ _ _
      · simp [handleAuth, htr, hip] at h

/-! ## Claim C2 -/

/-- Claim C2, counterexample: with stored password `P = ""`, the falsy
check `!storedPassword` re-enters the bootstrap branch, so `login("x")`
succeeds although `"x" ≠ P` — the claimed iff fails at `P = ""`. -/
theorem login_empty_stored_password_cx :
    storeEmptyPw.get "admin_password" = some ""
    ∧ (handleAuth storeEmptyPw (some (some "x")) "tok").success = true
    ∧ ("x" : String) ≠ "" := by
  exact ⟨rfl, rfl, by decide⟩

/-- Claim C2 (amended): for every stored password `P ≠ ""` (the code's
falsy test cannot distinguish `""` from absent), `login(p)` succeeds iff
`p = P` by exact string equality, and on mismatch it responds `密码错误`
and performs no writes. -/
theorem login_iff_password_matches (σ : Store) (P p t : String)
    (hP : σ.get "admin_password" = some P) (hne : P ≠ "") :
    ((handleAuth σ (some (some p)) t).success = true ↔ p = P)
    ∧ (p ≠ P → (handleAuth σ (some (some p)) t).message = some "密码错误"
        ∧ (handleAuth σ (some (some p)) t).store = σ) := by
  by_cases hpP : p = P
  · subst hpP
    rw [handleAuth_match_eq σ p t hP hne]
    exact ⟨by simp, fun hc => absurd rfl hc⟩
  · rw [handleAuth_mismatch_eq σ P p t hP hne hpP]
    exact ⟨by simp [hpP], fun _ => ⟨rfl, rfl⟩⟩

/-- Claim C2, witness: the amended theorem applied at `P = "a"`, `p = "b"`. -/
theorem login_iff_password_matches_w :
    ((handleAuth storePwA (some (some "b")) "t").success = true ↔ "b" = "a")
    ∧ ("b" ≠ "a" → (handleAuth storePwA (some (some "b")) "t").message = some "密码错误"
        ∧ (handleAuth storePwA (some (some "b")) "t").store = storePwA) :=
  login_iff_password_matches storePwA "a" "b" "t" rfl (by decide)

/-! ## Claim C4 -/

/-- Claim C4: on a fresh store (no `admin_password` key) the first login
stores the submitted password, stores the fresh session token, sets the
cookie and succeeds. -/
theorem bootstrap_login_sets_password (σ : Store) (p t : String)
    (h : σ.get "admin_password" = none) :
    (handleAuth σ (some (some p)) t).success = true
    ∧ (handleAuth σ (some (some p)) t).store.get "admin_password" = some p
    ∧ (handleAuth σ (some (some p)) t).store.get "admin_session" = some t
    ∧ (handleAuth σ (some (some p)) t).setCookie = some t := by
  have htr : truthy (σ.get "admin_password") = false := by rw [h]; rfl
  rw [handleAuth_bootstrap_eq σ p t htr]
  refine ⟨rfl, ?_, ?_, rfl⟩
  · rw [Store.get_put_ne _ _ _ _ (by decide), Store.get_put_same]
  · rw [Store.get_put_same]

/-- Claim C4, witness: bootstrap on the empty store with password `"pw1"`. -/
theorem bootstrap_login_sets_password_w :
    (handleAuth Store.empty (some (some "pw1")) "tok1").success = true
    ∧ (handleAuth Store.empty (some (some "pw1")) "tok1").store.get "admin_password" = some "pw1"
    ∧ (handleAuth Store.empty (some (some "pw1")) "tok1").store.get "admin_session" = some "tok1"
    ∧ (handleAuth Store.empty (some (some "pw1")) "tok1").setCookie = some "tok1" :=
  bootstrap_login_sets_password Store.empty "pw1" "tok1" rfl

/-! ## Claims C7, C9, C10 (`handleChangePassword`) -/

/-- The store after `handleChangePassword` is either untouched or a single
`put` of the `admin_password` key. -/
theorem changePassword_store_cases (σ : Store)
    (body : Option (Option Json × Option Json × Option Json)) :
    (handleChangePassword σ body).store = σ
    ∨ ∃ s, (handleChangePassword σ body).store = σ.put "admin_password" s := by
  rcases body with _ | ⟨cur, np, cp⟩
  · left; rfl
  · by_cases h1 : jsEqStored cur (σ.get "admin_password") = false
    · left; simp [handleChangePassword, h1]
    · by_cases h2 : jsStrictEq np cp = false
      · left; simp [handleChangePassword, h1, h2]
      · rcases np with _ | j
        · left; simp [handleChangePassword, h1, h2]
        · cases j with
          | str s => right; exact ⟨s, by simp [handleChangePassword, h1, h2]⟩
          | null => left; simp [handleChangePassword, h1, h2]
          | bool b => left; simp [handleChangePassword, h1, h2]
          | arr es => left; simp [handleChangePassword, h1, h2]
          | obj ms => left; simp [handleChangePassword, h1, h2]

/-- Claim C7: with a stored password `P`, a change request fails when the
current password does not match `P` or when the new and confirm passwords
differ — and in both cases the whole store (in particular the stored
password) is unchanged. -/
theorem changePassword_guard (σ : Store) (P cur np cp : String)
    (hP : σ.get "admin_password" = some P)
    (hfail : cur ≠ P ∨ np ≠ cp) :
    (handleChangePassword σ (some (some (.str cur), some (.str np), some (.str cp)))).success
        = false
    ∧ (handleChangePassword σ (some (some (.str cur), some (.str np), some (.str cp)))).store
        = σ := by
  by_cases hc : cur = P
  · have hnp : np ≠ cp := hfail.resolve_left (by simp [hc])
    have e : handleChangePassword σ (some (some (.str cur), some (.str np), some (.str cp)))
        = ⟨false, some "新密码和确认密码不一致", σ⟩ := by
      simp [handleChangePassword, hP, jsEqStored, jsStrictEq, hc, hnp]
    rw [e]
    exact ⟨rfl, rfl⟩
  · have e : handleChangePassword σ (some (some (.str cur), some (.str np), some (.str cp)))
        = ⟨false, some "当前密码错误", σ⟩ := by
      simp [handleChangePassword, hP, jsEqStored, hc]
    rw [e]
    exact ⟨rfl, rfl⟩

/-- Claim C7, witness: wrong current password `"z"` against stored `"a"`. -/
theorem changePassword_guard_w :
    (handleChangePassword storePwB
        (some (some (.str "z"), some (.str "b"), some (.str "b")))).success = false
    ∧ (handleChangePassword storePwB
        (some (some (.str "z"), some (.str "b"), some (.str "b")))).store = storePwB :=
  changePassword_guard storePwB "a" "z" "b" "b" rfl (Or.inl (by decide))

/-- Claim C9: a successful password change writes only `admin_password`;
every other key — in particular `admin_session`, `categories`, `sites` —
reads unchanged, so no session token is re-issued or invalidated. -/
theorem changePassword_frame (σ : Store)
    (body : Option (Option Json × Option Json × Option Json)) (k : String)
    (hs : (handleChangePassword σ body).success = true) (hk : k ≠ "admin_password") :
    (handleChangePassword σ body).store.get k = σ.get k := by
  rcases changePassword_store_cases σ body with h | ⟨s, h⟩
  · rw [h]
  · rw [h, Store.get_put_ne _ _ _ _ hk]

/-- Claim C9, witness: a successful change from `"a"` to `"b"` leaves
`admin_session` reading `"tok"`. -/
theorem changePassword_frame_w :
    (handleChangePassword storePwSession
        (some (some (.str "a"), some (.str "b"), some (.str "b")))).store.get "admin_session"
      = storePwSession.get "admin_session" :=
  changePassword_frame storePwSession
    (some (some (.str "a"), some (.str "b"), some (.str "b"))) "admin_session" rfl (by decide)

/-- Claim C10: on a store with no `admin_password` key, a change request
whose `currentPassword` is JSON `null` passes the current-password check
(`null === null`), so with equal new/confirm strings it succeeds and sets
the password — no prior login needed. -/
theorem changePassword_null_current_bootstrap (σ : Store) (np cp : String)
    (h : σ.get "admin_password" = none) (heq : np = cp) :
    (handleChangePassword σ (some (some .null, some (.str np), some (.str cp)))).success = true
    ∧ (handleChangePassword σ
        (some (some .null, some (.str np), some (.str cp)))).store.get "admin_password"
      = some np := by
  subst heq
  have e : handleChangePassword σ (some (some .null, some (.str np), some (.str np)))
      = ⟨true, some "密码修改成功", σ.put "admin_password" np⟩ := by
    simp [handleChangePassword, h, jsEqStored, jsStrictEq]
  rw [e]
  exact ⟨rfl, Store.get_put_same _ _ _⟩

/-- Claim C10, witness: on the empty store, `currentPassword = null` with
new password `"hacked"` succeeds. -/
theorem changePassword_null_current_bootstrap_w :
    (handleChangePassword Store.empty
        (some (some .null, some (.str "hacked"), some (.str "hacked")))).success = true
    ∧ (handleChangePassword Store.empty
        (some (some .null, some (.str "hacked"), some (.str "hacked")))).store.get
          "admin_password" = some "hacked" :=
  changePassword_null_current_bootstrap Store.empty "hacked" "hacked" rfl rfl

/-! ## Claim C3 (save / getData round trip) -/

/-- Claim C3: saving any categories sequence `C` and sites sequence `S`
succeeds, and a subsequent `getData` returns exactly their JSON encodings,
element order preserved (the encodings are structural, so equal encodings
mean equal sequences). -/
theorem save_then_getData_roundtrip (σ : Store) (C : List String) (S : List Site) :
    (handleSaveData σ (some (some (encodeCategories C), some (encodeSites S)))).success = true
    ∧ handleGetData
        (handleSaveData σ (some (some (encodeCategories C), some (encodeSites S)))).store
      = (encodeCategories C, encodeSites S) := by
  refine ⟨rfl, ?_⟩
  have h1 : ((σ.put "categories" (Json.stringify (encodeCategories C))).put "sites"
      (Json.stringify (encodeSites S))).get "categories"
      = some (Json.stringify (encodeCategories C)) := by
    rw [Store.get_put_ne _ _ _ _ (by decide), Store.get_put_same]
  have h2 : ((σ.put "categories" (Json.stringify (encodeCategories C))).put "sites"
      (Json.stringify (encodeSites S))).get "sites"
      = some (Json.stringify (encodeSites S)) := Store.get_put_same _ _ _
  show handleGetData ((σ.put "categories" (Json.stringify (encodeCategories C))).put "sites"
      (Json.stringify (encodeSites S))) = _
  unfold handleGetData
  rw [h1, h2, jsDecodeOr_stringify, jsDecodeOr_stringify]

/-! ## Claim C6 (fail-soft read) -/

theorem jsDecodeOr_of_not_fails (v : Option String) (h : ¬ decodeFails v) :
    jsDecodeOr v = some (specDecode v) := by
  rcases v with _ | s
  · rfl
  · by_cases hs : s = ""
    · simp [jsDecodeOr, specDecode, hs]
    · rcases hp : Json.parse s with _ | j
      · exact absurd ⟨s, rfl, hs, hp⟩ h
      · simp [jsDecodeOr, specDecode, hs, hp]

theorem jsDecodeOr_of_fails (v : Option String) (h : decodeFails v) :
    jsDecodeOr v = none := by
  obtain ⟨s, rfl, hs, hp⟩ := h
  simp [jsDecodeOr, hs, hp]

/-- Claim C6 (amended): `getData` is total (never throws) and always
responds with success; an absent key (or a stored `""`) independently
defaults its collection to `[]`; but when either present value fails to
JSON-decode, the single `try/catch` collapses BOTH collections to `[]` —
the defaulting is not per-key for decode failures. -/
theorem getData_failsoft_collapse (σ : Store) :
    ((¬ decodeFails (σ.get "categories") ∧ ¬ decodeFails (σ.get "sites")) →
      handleGetData σ = (specDecode (σ.get "categories"), specDecode (σ.get "sites")))
    ∧ ((decodeFails (σ.get "categories") ∨ decodeFails (σ.get "sites")) →
      handleGetData σ = (.arr [], .arr [])) := by
  constructor
  · rintro ⟨h1, h2⟩
    unfold handleGetData
    rw [jsDecodeOr_of_not_fails _ h1, jsDecodeOr_of_not_fails _ h2]
  · rintro (h | h)
    · unfold handleGetData
      rw [jsDecodeOr_of_fails _ h]
    · unfold handleGetData
      rcases hc : jsDecodeOr (σ.get "categories") with _ | c
      · rfl
      · rw [jsDecodeOr_of_fails _ h]

/-- Claim C6, counterexample: `categories` holds valid JSON `["a"]` and
`sites` holds the unparsable `"x"`; the claimed per-key independence
predicts `(["a"], [])`, but the code returns `([], [])` — the valid
categories value is discarded too. -/
theorem getData_not_independent_cx :
    Json.parse "[\"a\"]" = some (.arr [.str "a"])
    ∧ handleGetData storeMixed = (.arr [], .arr [])
    ∧ (Json.arr [] : Json) ≠ .arr [.str "a"] := by
  refine ⟨rfl, rfl, ?_⟩
  intro h
  simp at h

/-- Claim C6, witness: the amended theorem's collapse branch applied at a
store whose `sites` value is unparsable. -/
theorem getData_failsoft_collapse_w :
    handleGetData storeBadSites = (.arr [], .arr []) :=
  (getData_failsoft_collapse storeBadSites).2 (Or.inr ⟨"x", rfl, by decide, rfl⟩)

/-! ## Cookie-parsing lemmas for `checkSession` -/

theorem splitOnChar_no_sep (sep : Char) :
    ∀ l : List Char, (∀ c ∈ l, c ≠ sep) → splitOnChar sep l = [l] := by
  intro l
  induction l with
  | nil => intro _; rfl
  | cons c cs ih =>
    intro h
    have hc : c ≠ sep := h c (List.mem_cons_self c cs)
    have hcs := ih (fun x hx => h x (List.mem_cons_of_mem c hx))
    simp [splitOnChar, hc, hcs]

theorem splitOnChar_append (sep : Char) (b : List Char) :
    ∀ a : List Char, (∀ c ∈ a, c ≠ sep) →
    splitOnChar sep (a ++ sep :: b) = a :: splitOnChar sep b := by
  intro a
  induction a with
  | nil => intro _; simp [splitOnChar]
  | cons c cs ih =>
    intro h
    have hc : c ≠ sep := h c (List.mem_cons_self c cs)
    have hcs := ih (fun x hx => h x (List.mem_cons_of_mem c hx))
    simp only [List.cons_append, splitOnChar, if_neg hc, List.append_eq, hcs]

/-- The first `split` group is the run of non-separator characters. -/
theorem splitOnChar_head (sep : Char) :
    ∀ l : List Char, ∃ gs,
      splitOnChar sep l = l.takeWhile (fun c => c != sep) :: gs := by
  intro l
  induction l with
  | nil => exact ⟨[], rfl⟩
  | cons c cs ih =>
    obtain ⟨gs, hgs⟩ := ih
    by_cases hc : c = sep
    · subst hc
      refine ⟨splitOnChar c cs, ?_⟩
      simp [splitOnChar, List.takeWhile_cons]
    · refine ⟨gs, ?_⟩
      have hb : (c != sep) = true := by simp [hc]
      simp [splitOnChar, hc, hgs, List.takeWhile_cons, hb]

theorem dropWhile_all_false (p : Char → Bool) (l : List Char)
    (h : ∀ c ∈ l, p c = false) : l.dropWhile p = l := by
  cases l with
  | nil => rfl
  | cons c cs =>
    rw [List.dropWhile_cons, if_neg (by simp [h c (List.mem_cons_self c cs)])]

theorem jsTrim_id (l : List Char) (h : ∀ c ∈ l, trimWs c = false) : jsTrim l = l := by
  have h2 : ∀ c ∈ l.reverse, trimWs c = false := fun c hc => h c (List.mem_reverse.mp hc)
  unfold jsTrim
  rw [dropWhile_all_false _ _ h, dropWhile_all_false _ _ h2, List.reverse_reverse]

theorem takeWhile_all_true (p : Char → Bool) (l : List Char)
    (h : ∀ c ∈ l, p c = true) : l.takeWhile p = l :=
  List.takeWhile_eq_self_iff.mpr h

theorem startsWithL_append (rest : List Char) :
    ∀ p : List Char, startsWithL p (p ++ rest) = true := by
  intro p
  induction p with
  | nil => rfl
  | cons a ps ih => simp [startsWithL, ih]

/-- `checkSession` on a header consisting of the single cookie
`admin_session=<v>`, for any value `v` free of `;` and of trimmed
whitespace: the extracted token is `v` truncated at its first `=`
(`split('=')[1]`), and the request authenticates exactly when that
truncation is nonempty and equals the stored token. -/
theorem checkSession_single (σ : Store) (v : String)
    (hv : ∀ c ∈ v.data, c ≠ ';' ∧ trimWs c = false) :
    checkSession σ (some ("admin_session=" ++ v))
      = (if v.data.takeWhile (fun c => c != '=') = [] then ⟨false, none⟩
         else if σ.get "admin_session"
             = some (String.mk (v.data.takeWhile (fun c => c != '='))) then
           ⟨true, some (String.mk (v.data.takeWhile (fun c => c != '=')))⟩
         else ⟨false, none⟩) := by
  have hdata : ("admin_session=" ++ v).data = "admin_session=".data ++ v.data :=
    String.data_append _ _
  have hne : ("admin_session=" ++ v) ≠ "" := by
    intro he
    have h0 : "admin_session=".data ++ v.data = ([] : List Char) := by
      rw [← hdata]
      exact congrArg String.data he
    have := congrArg List.length h0
    simp at this
  have hpre1 : ∀ c ∈ "admin_session=".data, c ≠ ';' := by decide
  have hpre2 : ∀ c ∈ "admin_session=".data, trimWs c = false := by decide
  have hnosemi : ∀ c ∈ "admin_session=".data ++ v.data, c ≠ ';' := by
    intro c hc
    rcases List.mem_append.mp hc with h | h
    · exact hpre1 c h
    · exact (hv c h).1
  have hnows : ∀ c ∈ "admin_session=".data ++ v.data, trimWs c = false := by
    intro c hc
    rcases List.mem_append.mp hc with h | h
    · exact hpre2 c h
    · exact (hv c h).2
  have hsplit1 : splitOnChar ';' (("admin_session=" ++ v).data)
      = ["admin_session=".data ++ v.data] := by
    rw [hdata]
    exact splitOnChar_no_sep ';' _ hnosemi
  have htrim : jsTrim ("admin_session=".data ++ v.data)
      = "admin_session=".data ++ v.data := jsTrim_id _ hnows
  have hstarts : startsWithL "admin_session=".data ("admin_session=".data ++ v.data)
      = true := startsWithL_append _ _
  have heq0 : "admin_session=".data = "admin_session".data ++ ['='] := by decide
  have heqsplit : "admin_session=".data ++ v.data
      = "admin_session".data ++ '=' :: v.data := by
    rw [heq0, List.append_assoc]
    rfl
  obtain ⟨gs, hgs⟩ := splitOnChar_head '=' v.data
  have hsplit2 : splitOnChar '=' ("admin_session=".data ++ v.data)
      = "admin_session".data :: v.data.takeWhile (fun c => c != '=') :: gs := by
    rw [heqsplit, splitOnChar_append '=' v.data "admin_session".data (by decide), hgs]
  show (if ("admin_session=" ++ v) = "" then (⟨false, none⟩ : SessionResult)
        else
          match (splitOnChar ';' (("admin_session=" ++ v).data)).map jsTrim |>.find?
              (fun c => startsWithL "admin_session=".data c) with
          | none => ⟨false, none⟩
          | some sessionCookie =>
            match (splitOnChar '=' sessionCookie).get? 1 with
            | none => ⟨false, none⟩
            | some tokenChars =>
              if tokenChars = [] then ⟨false, none⟩
              else
                if σ.get "admin_session" = some (String.mk tokenChars) then
                  ⟨true, some (String.mk tokenChars)⟩
                else ⟨false, none⟩) = _
  rw [if_neg hne, hsplit1]
  simp only [List.map_cons, List.map_nil, htrim]
  rw [List.find?_cons_of_pos _ hstarts]
  show (match (splitOnChar '=' ("admin_session=".data ++ v.data)).get? 1 with
        | none => (⟨false, none⟩ : SessionResult)
        | some tokenChars =>
          if tokenChars = [] then ⟨false, none⟩
          else
            if σ.get "admin_session" = some (String.mk tokenChars) then
              ⟨true, some (String.mk tokenChars)⟩
            else ⟨false, none⟩) = _
  rw [hsplit2]
  rfl

/-- Base-36 characters are neither `;` nor `=` nor trimmable whitespace. -/
theorem base36_char_facts (c : Char)
    (hc : (48 ≤ c.toNat ∧ c.toNat ≤ 57) ∨ (97 ≤ c.toNat ∧ c.toNat ≤ 122)) :
    c ≠ ';' ∧ trimWs c = false ∧ (c != '=') = true := by
  have w0 : c ≠ ';' := by intro h; subst h; revert hc; decide
  have w7 : c ≠ '=' := by intro h; subst h; revert hc; decide
  have w1 : c ≠ ' ' := by intro h; subst h; revert hc; decide
  have w2 : c ≠ '\x09' := by intro h; subst h; revert hc; decide
  have w3 : c ≠ '\x0a' := by intro h; subst h; revert hc; decide
  have w4 : c ≠ '\x0b' := by intro h; subst h; revert hc; decide
  have w5 : c ≠ '\x0c' := by intro h; subst h; revert hc; decide
  have w6 : c ≠ '\x0d' := by intro h; subst h; revert hc; decide
  refine ⟨w0, ?_, by simp [w7]⟩
  simp [trimWs, w1, w2, w3, w4, w5, w6]

theorem base36_cookie_ready (t : String) (h : base36 t) :
    ∀ c ∈ t.data, c ≠ ';' ∧ trimWs c = false :=
  fun c hc => ⟨(base36_char_facts c (h.2 c hc)).1, (base36_char_facts c (h.2 c hc)).2.1⟩

theorem base36_takeWhile (t : String) (h : base36 t) :
    t.data.takeWhile (fun c => c != '=') = t.data :=
  takeWhile_all_true _ _ (fun c hc => (base36_char_facts c (h.2 c hc)).2.2)

/-- For a `generateToken`-shaped cookie value the session check is exactly
equality with the stored token. -/
theorem checkSession_base36_iff (σ : Store) (t : String) (h36 : base36 t) :
    (checkSession σ (some ("admin_session=" ++ t))).isAuthenticated = true
      ↔ σ.get "admin_session" = some t := by
  rw [checkSession_single σ t (base36_cookie_ready t h36), base36_takeWhile t h36]
  show (if t.data = [] then (⟨false, none⟩ : SessionResult)
        else if σ.get "admin_session" = some t then ⟨true, some t⟩
        else ⟨false, none⟩).isAuthenticated = true ↔ _
  rw [if_neg h36.1]
  by_cases hst : σ.get "admin_session" = some t
  · simp [hst]
  · simp [hst]

/-! ## Claim C8 -/

/-- Claim C8, counterexample: the cookie `admin_session=abc=def` carries
the value `"abc=def"`, which differs from the stored token `"abc"` — the
claimed contract says not authenticated — yet `split('=')[1]` truncates
the value at its first `=` and the request authenticates. -/
theorem checkSession_equals_sign_cx :
    storeTokAbc.get "admin_session" = some "abc"
    ∧ (checkSession storeTokAbc (some "admin_session=abc=def")).isAuthenticated = true
    ∧ ("abc=def" : String) ≠ "abc" := by
  refine ⟨rfl, rfl, by decide⟩

/-- A header none of whose `;`-split, trimmed parts starts with
`admin_session=` never authenticates: `cookies.find(...)` comes back
empty. -/
theorem checkSession_no_cookie (σ : Store) (h : String)
    (hnone : ∀ part ∈ (splitOnChar ';' h.data).map jsTrim,
      startsWithL "admin_session=".data part = false) :
    (checkSession σ (some h)).isAuthenticated = false := by
  by_cases he : h = ""
  · subst he
    rfl
  · have hfind : ((splitOnChar ';' h.data).map jsTrim).find?
        (fun c => startsWithL "admin_session=".data c) = none := by
      rw [List.find?_eq_none]
      intro x hx
      simp [hnone x hx]
    show (if h = "" then (⟨false, none⟩ : SessionResult)
          else
            match ((splitOnChar ';' h.data).map jsTrim).find?
                (fun c => startsWithL "admin_session=".data c) with
            | none => ⟨false, none⟩
            | some sessionCookie =>
              match (splitOnChar '=' sessionCookie).get? 1 with
              | none => ⟨false, none⟩
              | some tokenChars =>
                if tokenChars = [] then ⟨false, none⟩
                else
                  if σ.get "admin_session" = some (String.mk tokenChars) then
                    ⟨true, some (String.mk tokenChars)⟩
                  else ⟨false, none⟩).isAuthenticated = false
    rw [if_neg he, hfind]

/-- Claim C8 (amended): `checkSession` is read-only (by construction it
returns no store); it is not-authenticated on an absent header and on any
header in which no `;`-split, trimmed cookie starts with
`admin_session=`; and for a header carrying `admin_session=<v>` (any `v`
without `;` or edge whitespace) the code does not compare the full cookie
value: it authenticates exactly when the prefix of `v` before its first
`=` (`split('=')[1]`) is nonempty and equals the stored token by exact
string equality. -/
theorem checkSession_token_contract (σ : Store) (v : String)
    (hv : ∀ c ∈ v.data, c ≠ ';' ∧ trimWs c = false) :
    ((checkSession σ none).isAuthenticated = false)
    ∧ (∀ h : String, (∀ part ∈ (splitOnChar ';' h.data).map jsTrim,
          startsWithL "admin_session=".data part = false) →
        (checkSession σ (some h)).isAuthenticated = false)
    ∧ ((checkSession σ (some ("admin_session=" ++ v))).isAuthenticated = true
        ↔ (v.data.takeWhile (fun c => c != '=') ≠ []
           ∧ σ.get "admin_session"
               = some (String.mk (v.data.takeWhile (fun c => c != '='))))) := by
  refine ⟨rfl, fun h hnone => checkSession_no_cookie σ h hnone, ?_⟩
  rw [checkSession_single σ v hv]
  by_cases h0 : v.data.takeWhile (fun c => c != '=') = []
  · rw [if_pos h0]
    simp [h0]
  · rw [if_neg h0]
    by_cases hst : σ.get "admin_session"
        = some (String.mk (v.data.takeWhile (fun c => c != '=')))
    · rw [if_pos hst]
      simp [h0, hst]
    · rw [if_neg hst]
      simp [h0, hst]

/-- Claim C8, witness: the contract applied at the value `"a=b"`, its
no-cookie conjunct instantiated at the header `"theme=dark"` (which
carries no `admin_session` cookie). -/
theorem checkSession_token_contract_w :
    ((checkSession storeTokA none).isAuthenticated = false)
    ∧ ((checkSession storeTokA (some "theme=dark")).isAuthenticated = false)
    ∧ ((checkSession storeTokA (some ("admin_session=" ++ "a=b"))).isAuthenticated = true
        ↔ (("a=b" : String).data.takeWhile (fun c => c != '=') ≠ []
           ∧ storeTokA.get "admin_session"
               = some (String.mk (("a=b" : String).data.takeWhile (fun c => c != '='))))) :=
  ⟨(checkSession_token_contract storeTokA "a=b" (by decide)).1,
   (checkSession_token_contract storeTokA "a=b" (by decide)).2.1 "theme=dark" (by decide),
   (checkSession_token_contract storeTokA "a=b" (by decide)).2.2⟩

/-! ## Claim C5 -/

/-- Claim C5: after two successive successful logins storing
`generateToken`-shaped tokens `t1` then `t2` with `t1 ≠ t2`, a request
whose cookie carries `t1` is no longer authenticated and one carrying
`t2` is — only the most recently stored token validates. -/
theorem second_login_invalidates_first (σ : Store) (p1 p2 t1 t2 : String)
    (h1 : base36 t1) (h2 : base36 t2) (hne : t1 ≠ t2)
    (hs1 : (handleAuth σ (some (some p1)) t1).success = true)
    (hs2 : (handleAuth (handleAuth σ (some (some p1)) t1).store (some (some p2)) t2).success
        = true) :
    (checkSession (handleAuth (handleAuth σ (some (some p1)) t1).store (some (some p2)) t2).store
        (some ("admin_session=" ++ t1))).isAuthenticated = false
    ∧ (checkSession (handleAuth (handleAuth σ (some (some p1)) t1).store (some (some p2)) t2).store
        (some ("admin_session=" ++ t2))).isAuthenticated = true := by
  have htok := handleAuth_success_token
    (handleAuth σ (some (some p1)) t1).store (some (some p2)) t2 hs2
  constructor
  · have hneq : ¬ (handleAuth (handleAuth σ (some (some p1)) t1).store
        (some (some p2)) t2).store.get "admin_session" = some t1 := by
      rw [htok]
      intro hcon
      exact hne (Option.some.inj hcon).symm
    cases hb : (checkSession (handleAuth (handleAuth σ (some (some p1)) t1).store
        (some (some p2)) t2).store (some ("admin_session=" ++ t1))).isAuthenticated with
    | false => rfl
    | true =>
      exact absurd ((checkSession_base36_iff _ t1 h1).mp hb) hneq
  · exact (checkSession_base36_iff _ t2 h2).mpr htok

/-- Claim C5, witness: bootstrap with `"pw"` and token `"tok1"`, then a
second login with the same password and token `"tok2"`. -/
theorem second_login_invalidates_first_w :
    (checkSession (handleAuth (handleAuth Store.empty (some (some "pw")) "tok1").store
        (some (some "pw")) "tok2").store
        (some ("admin_session=" ++ "tok1"))).isAuthenticated = false
    ∧ (checkSession (handleAuth (handleAuth Store.empty (some (some "pw")) "tok1").store
        (some (some "pw")) "tok2").store
        (some ("admin_session=" ++ "tok2"))).isAuthenticated = true :=
  second_login_invalidates_first Store.empty "pw" "pw" "tok1" "tok2"
    (by decide) (by decide) (by decide) rfl rfl

/-! ## Claim C1 -/

/-- Claim C1 (code bug in the source): `handleAdminRequest` dispatches
`POST /admin/save` directly to `handleSaveData` before its session check —
`checkSession` runs only in the page fall-through branch — so a request
with no session cookie at all (here `checkSession` says not authenticated)
still succeeds and overwrites the stored `categories` and `sites`. -/
theorem save_route_skips_session_gate :
    (checkSession storeLive saveNoCookieReq.cookieHeader).isAuthenticated = false
    ∧ storeLive.get "categories" = some "[\"Work\"]"
    ∧ (handleAdminRequest storeLive saveNoCookieReq "t").1 = .saveResp true none
    ∧ ((handleAdminRequest storeLive saveNoCookieReq "t").2).get "categories" = some "[]"
    ∧ ((handleAdminRequest storeLive saveNoCookieReq "t").2).get "sites" = some "[]" := by
  exact ⟨rfl, rfl, rfl, rfl, rfl⟩

example : Json.parse "x" = none := rfl
example : Json.parse "[]" = some (Json.arr []) := rfl
example : Json.parse "[\"a\"]" = some (Json.arr [Json.str "a"]) := rfl
example : Json.stringify (Json.arr [Json.str "a"]) = "[\"a\"]" := rfl
example : Json.parse (Json.stringify (Json.obj [("k", Json.str "v")]))
    = some (Json.obj [("k", Json.str "v")]) := rfl

end Nav
